import Mathlib

/-!
Verification of the `pack` write path of rust-u4pak (`src/pack.rs`).

The Rust code is shallowly embedded: bytes are `Nat` values below 256,
writers are modelled as the list of bytes they receive, and the SHA-1
hasher of the `crypto` crate is modelled functionally as the list of
bytes fed to it since the last `reset`, digested by an executable
SHA-1 implementation.  Machine integers (`u32`, `u64`, `usize`) are
modelled as `Nat` with explicit `% 2 ^ w` where overflow matters; on
the 64-bit targets this program supports, `usize` is 8 bytes wide.
-/

set_option maxRecDepth 100000

deriving instance DecidableEq for Except

namespace U4pak

/-- Little-endian serialization of a `u32` value, 4 bytes. -/
def u32le (n : Nat) : List Nat :=
  [n % 256, n / 2 ^ 8 % 256, n / 2 ^ 16 % 256, n / 2 ^ 24 % 256]

/-- Little-endian serialization of a `u64` value, 8 bytes. -/
def u64le (n : Nat) : List Nat :=
  [n % 256, n / 2 ^ 8 % 256, n / 2 ^ 16 % 256, n / 2 ^ 24 % 256,
   n / 2 ^ 32 % 256, n / 2 ^ 40 % 256, n / 2 ^ 48 % 256, n / 2 ^ 56 % 256]

/-- Little-endian serialization of a `usize` value as produced by
`usize::to_le_bytes()` on a 64-bit target: 8 bytes. -/
def usizeLeBytes (n : Nat) : List Nat := u64le n

/-- Big-endian serialization of a 32-bit word, 4 bytes (SHA-1 output order). -/
def wordBE (w : Nat) : List Nat :=
  [w / 2 ^ 24 % 256, w / 2 ^ 16 % 256, w / 2 ^ 8 % 256, w % 256]

/-- Big-endian serialization of a 64-bit value, 8 bytes (SHA-1 length field). -/
def u64be (n : Nat) : List Nat :=
  [n / 2 ^ 56 % 256, n / 2 ^ 48 % 256, n / 2 ^ 40 % 256, n / 2 ^ 32 % 256,
   n / 2 ^ 24 % 256, n / 2 ^ 16 % 256, n / 2 ^ 8 % 256, n % 256]

/-- Rotate a 32-bit word left by `n` bits. -/
def rotl (n b : Nat) : Nat := (b * 2 ^ n + b / 2 ^ (32 - n)) % 2 ^ 32

/-- SHA-1 working state: the five 32-bit chaining words. -/
structure Sha1State where
  a : Nat
  b : Nat
  c : Nat
  d : Nat
  e : Nat
deriving Repr, DecidableEq

/-- Initial SHA-1 chaining value. -/
def sha1Init : Sha1State :=
  ⟨0x67452301, 0xEFCDAB89, 0x98BADCFE, 0x10325476, 0xC3D2E1F0⟩

/-- SHA-1 message padding: append `0x80`, zero bytes up to 56 mod 64,
then the bit length as a 64-bit big-endian value. -/
def sha1Pad (msg : List Nat) : List Nat :=
  let l := msg.length
  let z := (64 + 56 - (l + 1) % 64) % 64
  msg ++ [0x80] ++ List.replicate z 0 ++ u64be (8 * l)

/-- Group a byte list into big-endian 32-bit words. -/
def bytesToWords : List Nat → List Nat
  | a :: b :: c :: d :: rest => (((a * 256 + b) * 256 + c) * 256 + d) :: bytesToWords rest
  | _ => []

/-- Split a byte list into 64-byte blocks; `fuel` bounds the recursion
depth (any `fuel ≥ l.length` is enough). -/
def chunks64Go : Nat → List Nat → List (List Nat)
  | 0, _ => []
  | _, [] => []
  | fuel + 1, l => l.take 64 :: chunks64Go fuel (l.drop 64)

/-- Split a byte list into 64-byte blocks. -/
def chunks64 (l : List Nat) : List (List Nat) := chunks64Go l.length l

/-- Extend the 16 message words with `count` additional schedule words. -/
def sha1Extend (w : Array Nat) : Nat → Array Nat
  | 0 => w
  | n + 1 =>
    sha1Extend
      (w.push (rotl 1 (((w.getD (w.size - 3) 0) ^^^ (w.getD (w.size - 8) 0)) ^^^
        ((w.getD (w.size - 14) 0) ^^^ (w.getD (w.size - 16) 0))))) n

/-- One SHA-1 round: update the register file for round index `i`. -/
def sha1Round (w : Array Nat) (st : Sha1State) (i : Nat) : Sha1State :=
  let f :=
    if i < 20 then (st.b &&& st.c) ||| ((0xFFFFFFFF ^^^ st.b) &&& st.d)
    else if i < 40 then (st.b ^^^ st.c) ^^^ st.d
    else if i < 60 then ((st.b &&& st.c) ||| (st.b &&& st.d)) ||| (st.c &&& st.d)
    else (st.b ^^^ st.c) ^^^ st.d
  let k :=
    if i < 20 then 0x5A827999
    else if i < 40 then 0x6ED9EBA1
    else if i < 60 then 0x8F1BBCDC
    else 0xCA62C1D6
  let temp := (rotl 5 st.a + f + st.e + k + w.getD i 0) % 2 ^ 32
  ⟨temp, st.a, rotl 30 st.b, st.c, st.d⟩

/-- Process one 64-byte block, updating the chaining state. -/
def sha1Block (st : Sha1State) (block : List Nat) : Sha1State :=
  let w := sha1Extend (bytesToWords block).toArray 64
  let r := (List.range 80).foldl (sha1Round w) st
  ⟨(st.a + r.a) % 2 ^ 32, (st.b + r.b) % 2 ^ 32, (st.c + r.c) % 2 ^ 32,
   (st.d + r.d) % 2 ^ 32, (st.e + r.e) % 2 ^ 32⟩

/-- SHA-1 digest of a byte list, as 20 bytes.  Models the `crypto`
crate's `Sha1` digest of all bytes input since the last `reset`. -/
def sha1Hash (msg : List Nat) : List Nat :=
  let st := (chunks64 (sha1Pad msg)).foldl sha1Block sha1Init
  wordBE st.a ++ wordBE st.b ++ wordBE st.c ++ wordBE st.d ++ wordBE st.e

/-- UTF-8 encoding of one Unicode scalar value (what `str::as_bytes`
exposes per character of a Rust string). -/
def utf8EncodeCharNat (c : Nat) : List Nat :=
  if c < 0x80 then [c]
  else if c < 0x800 then [0xC0 + c / 64, 0x80 + c % 64]
  else if c < 0x10000 then [0xE0 + c / 4096, 0x80 + c / 64 % 64, 0x80 + c % 64]
  else [0xF0 + c / 262144, 0x80 + c / 4096 % 64, 0x80 + c / 64 % 64, 0x80 + c % 64]

/-- UTF-8 bytes of a string: models Rust `path.as_bytes()` (Rust strings
are stored as UTF-8). -/
def strBytes (s : String) : List Nat :=
  s.data.foldr (fun c acc => utf8EncodeCharNat c.toNat ++ acc) []

/-- Text encodings selectable for mount point and filenames
(`Encoding` from `pak.rs`; the enum itself is outside `src/` but its
three variants are fixed by `write_path` and the spec §4.1). -/
inductive Encoding where
  | UTF8
  | ASCII
  | Latin1
deriving Repr, DecidableEq

/-- Errors produced by the embedded `pack`/`write_path` code paths.
The Rust `Error` type (in `result.rs`, outside `src/`) carries a
message and an optional path; here each construction site in
`pack.rs` gets its own constructor carrying the data the Rust code
formats into the message, so that "the error names the offending
byte and the string" is visible in the model. -/
inductive PError where
  | unsupportedVersion (version : Nat)
  | unsupportedCompression (method : Nat)
  | unsupportedCompressionEntry (method : Nat) (filename : String)
  | noCreationTime (filename : String)
  | illegalAsciiByte (byte : Nat) (path : String)
  | illegalLatin1Char (ch : Char) (path : String)
deriving Repr, DecidableEq

/-- Translation of `write_path` (`src/pack.rs` lines 344-382).  The
`writer` argument is modelled by the returned byte list: on success the
result is exactly the bytes written, and in the two fallible branches
the Rust code validates the whole string before writing anything, so an
error means nothing was written.  The length prefix is
`bytes.len().to_le_bytes()` — a `usize`, 8 bytes on a 64-bit target. -/
def write_path (path : String) (encoding : Encoding) : Except PError (List Nat) :=
  match encoding with
  | .UTF8 =>
    let bytes := strBytes path
    .ok (usizeLeBytes bytes.length ++ bytes)
  | .ASCII =>
    let bytes := strBytes path
    match bytes.find? (fun byte => 127 < byte) with
    | some byte => .error (.illegalAsciiByte byte path)
    | none => .ok (usizeLeBytes bytes.length ++ bytes)
  | .Latin1 =>
    match path.data.find? (fun ch => 255 < ch.toNat) with
    | some ch => .error (.illegalLatin1Char ch path)
    | none =>
      let bytes := path.data.map (fun ch => ch.toNat % 256)
      .ok (usizeLeBytes bytes.length ++ bytes)

/-- Compression method code `COMPR_NONE` (from `pak.rs`, outside
`src/`; the value is irrelevant to every claim, only that it differs
from `COMPR_ZLIB` and `COMPR_DEFAULT`). -/
def COMPR_NONE : Nat := 0

/-- Compression method code `COMPR_ZLIB` (from `pak.rs`, outside `src/`). -/
def COMPR_ZLIB : Nat := 1

/-- `COMPR_DEFAULT = u32::MAX` (`src/pack.rs` line 32). -/
def COMPR_DEFAULT : Nat := 4294967295

/-- Modelled from the spec: `PAK_MAGIC`, the fixed footer magic
constant, lives in `pak.rs` which is not under `src/`; §6 only says it
is a fixed `u32`.  Its value does not affect any claim. -/
def PAK_MAGIC : Nat := 0x5A6F12E1

/-- Modelled from the spec: `BUFFER_SIZE`, the fixed scratch-buffer
size from `pak.rs` (not under `src/`); §5 says payload transfer is
chunked by a fixed default size.  Any positive value models it. -/
def BUFFER_SIZE : Nat := 65536

/-- Modelled from the spec: `DEFAULT_BLOCK_SIZE` from `pak.rs` (not
under `src/`), the default `compression_block_size` of `PackOptions`. -/
def DEFAULT_BLOCK_SIZE : Nat := 65536

/-- `CompressionBlock` (`record.rs`): byte range of one compressed chunk. -/
structure CompressionBlock where
  start_offset : Nat
  end_offset : Nat
deriving Repr, DecidableEq

/-- `Record` (`record.rs`, fields as constructed by `Record::new` in
`src/pack.rs` lines 247-258). -/
structure Record where
  filename : String
  offset : Nat
  size : Nat
  uncompressed_size : Nat
  compression_method : Nat
  timestamp : Option Nat
  sha1 : List Nat
  compression_blocks : Option (List CompressionBlock)
  encrypted : Bool
  compression_block_size : Nat
deriving Repr, DecidableEq

instance : Inhabited Record :=
  ⟨⟨"", 0, 0, 0, 0, none, [], none, false, 0⟩⟩

/-- `Pak` as built by `Pak::new` at the end of `pack`
(`src/pack.rs` lines 330-341). -/
structure Pak where
  version : Nat
  index_offset : Nat
  index_size : Nat
  index_sha1 : List Nat
  mount_point : Option String
  records : List Record
deriving Repr, DecidableEq

/-- One input to `pack`: a `PackPath` (`src/pack.rs` lines 34-38)
together with the host file it names.  `contents` are the file's bytes
(its `metadata.len()` is `contents.length`); `created` is the file's
creation time in seconds since the Unix epoch, `none` when the host
cannot provide it (`metadata.created()` or `duration_since` fails). -/
structure PackPath where
  compression_method : Nat
  compression_block_size : Nat
  filename : String
  contents : List Nat
  created : Option Nat
deriving Repr, DecidableEq

instance : Inhabited PackPath := ⟨⟨0, 0, "", [], none⟩⟩

/-- `PackOptions` (`src/pack.rs` lines 66-72). -/
structure PackOptions where
  version : Nat
  mount_point : Option String
  compression_method : Nat
  compression_block_size : Nat
  encoding : Encoding
deriving Repr, DecidableEq

/-- Effective compression method of one entry (`src/pack.rs` lines
120-124): the per-file method unless it is `COMPR_DEFAULT`. -/
def effMethod (opts : PackOptions) (f : PackPath) : Nat :=
  if f.compression_method = COMPR_DEFAULT then opts.compression_method
  else f.compression_method

/-- Translation of the `COMPR_NONE` transfer loop (`src/pack.rs` lines
166-184): copy `BUFFER_SIZE`-byte chunks while at least `BUFFER_SIZE`
bytes remain, then the remainder.  The returned list is both what is
written and what is fed to the hasher (the loop writes and hashes the
same buffer).  `fuel` bounds the recursion; `fuel ≥ data.length` always
suffices because `BUFFER_SIZE > 0`. -/
def chunkedCopyGo : Nat → List Nat → List Nat
  | 0, data => data
  | fuel + 1, data =>
    if BUFFER_SIZE ≤ data.length then
      data.take BUFFER_SIZE ++ chunkedCopyGo fuel (data.drop BUFFER_SIZE)
    else data

/-- The `COMPR_NONE` transfer loop run with enough fuel. -/
def chunkedCopy (data : List Nat) : List Nat := chunkedCopyGo data.length data

/-- Translation of the `COMPR_ZLIB` block loop (`src/pack.rs` lines
203-232).  The body only sizes the blocks: `end_offset` is set to
`start_offset` and `start_offset` is left unchanged (the compression,
write and hash calls are commented out in the source), so every pushed
block is `⟨start_offset, start_offset⟩`.  `fuel` bounds the number of
iterations; `none` means the loop did not finish within `fuel`
iterations (with `blockSize = 0` the condition `remaining ≥ blockSize`
never becomes false, so no fuel is ever enough). -/
def zlibBlocks : Nat → Nat → Nat → Nat → List CompressionBlock → Option (List CompressionBlock)
  | 0, _, _, _, _ => none
  | fuel + 1, blockSize, remaining, start_offset, blocks =>
    if blockSize ≤ remaining then
      zlibBlocks fuel blockSize (remaining - blockSize) start_offset
        (blocks ++ [⟨start_offset, start_offset⟩])
    else if 0 < remaining then
      some (blocks ++ [⟨start_offset, start_offset⟩])
    else some blocks

/-- State threaded through the per-file loop of `pack` (`src/pack.rs`
lines 118-261): bytes written to the output so far, the hasher's
accumulated input since its last `reset`, the records built so far, and
`data_size`. -/
structure LoopState where
  written : List Nat
  hash : List Nat
  records : List Record
  dataSize : Nat
deriving Repr, DecidableEq

/-- Outcome of the per-file loop: finished, failed after `written`
bytes, or diverged (infinite loop) after `written` bytes. -/
inductive LoopOut where
  | ok (st : LoopState)
  | err (written : List Nat) (e : PError)
  | div (written : List Nat)
deriving Repr, DecidableEq

/-- Translation of the body of `for path in paths` (`src/pack.rs` lines
118-261).  Opening the host file and reading its metadata are modelled
as always succeeding (those failures depend only on the host
filesystem); failure of `metadata.created()` or
`duration_since(UNIX_EPOCH)` is modelled by `f.created = none`. -/
def packLoop (fuel : Nat) (opts : PackOptions) : LoopState → List PackPath → LoopOut
  | st, [] => .ok st
  | st, f :: rest =>
    let offset := st.dataSize
    let cm := effMethod opts f
    let uncompressed_size := f.contents.length
    let ts : Except PError (Option Nat) :=
      if opts.version = 1 then
        match f.created with
        | some t => .ok (some t)
        | none => .error (.noCreationTime f.filename)
      else .ok none
    match ts with
    | .error e => .err st.written e
    | .ok timestamp =>
      if cm = COMPR_NONE then
        let payload := chunkedCopy f.contents
        let r : Record :=
          ⟨f.filename, offset, uncompressed_size, uncompressed_size, cm,
            timestamp, sha1Hash payload, none, false, 0⟩
        packLoop fuel opts
          ⟨st.written ++ payload, payload, st.records ++ [r],
            st.dataSize + uncompressed_size⟩ rest
      else if cm = COMPR_ZLIB then
        let cbs0 :=
          if f.compression_block_size = 0 then opts.compression_block_size
          else f.compression_block_size
        let cbs := if uncompressed_size < cbs0 then uncompressed_size else cbs0
        match zlibBlocks fuel cbs uncompressed_size 0 [] with
        | none => .div st.written
        | some blocks =>
          let r : Record :=
            ⟨f.filename, offset, 0, uncompressed_size, cm,
              timestamp, sha1Hash [], some blocks, false, cbs⟩
          packLoop fuel opts
            ⟨st.written, [], st.records ++ [r], st.dataSize + 0⟩ rest
      else .err st.written (.unsupportedCompressionEntry cm f.filename)

/-- Modelled from the spec: per-version record serialization
(`Record::write_v1/v2/v3` live in `record.rs`, not under `src/`); the
layouts follow the table of §4.3, all integers little-endian.  Only
called with versions 1, 2, 3 (the default arm carries the v3 layout). -/
def recordBytes (version : Nat) (r : Record) : List Nat :=
  let base := u64le r.offset ++ u64le r.size ++ u64le r.uncompressed_size ++
    u32le r.compression_method
  match version with
  | 1 => base ++ u64le (r.timestamp.getD 0) ++ r.sha1
  | 2 => base ++ r.sha1
  | _ => base ++ r.sha1 ++
      (if r.compression_method ≠ COMPR_NONE then
        u32le (r.compression_blocks.getD []).length ++
          (r.compression_blocks.getD []).foldr
            (fun b acc => u64le b.start_offset ++ u64le b.end_offset ++ acc) [] ++
          [if r.encrypted then 1 else 0] ++ u32le r.compression_block_size
      else [])

/-- Translation of the per-record index loops (`src/pack.rs` lines
278-317): for each record, a scratch buffer receives the serialized
filename then the record; the buffer is written out and fed to the
hasher.  On a `write_path` error the bytes of earlier records are
already written, so the error carries them. -/
def writeIndexRecords (version : Nat) (enc : Encoding) (acc : List Nat) :
    List Record → Except (List Nat × PError) (List Nat)
  | [] => .ok acc
  | r :: rest =>
    match write_path r.filename enc with
    | .error e => .error (acc, e)
    | .ok nameBytes =>
      writeIndexRecords version enc (acc ++ nameBytes ++ recordBytes version r) rest

/-- Result of `pack`: `created` records whether the output file was
opened (`OpenOptions` at `src/pack.rs` line 103) and `written` the
bytes written to it.  `diverged` models the infinite loop: the per-file
loop ran out of fuel, which a lemma shows is independent of the fuel
for the offending inputs. -/
inductive PackResult where
  | error (created : Bool) (written : List Nat) (e : PError)
  | diverged (created : Bool) (written : List Nat)
  | ok (written : List Nat) (pak : Pak)
deriving Repr, DecidableEq

/-- Version validation of `pack` (`src/pack.rs` lines 87-92). -/
def versionOk (v : Nat) : Bool := v == 1 || v == 2 || v == 3

/-- Build-wide compression-method validation (`src/pack.rs` lines 94-100). -/
def methodOk (m : Nat) : Bool := m == COMPR_NONE || m == COMPR_ZLIB

/-- Translation of `pack` (`src/pack.rs` lines 86-342).  Steps in
source order: validate version, validate compression method, open the
output file, run the per-file loop, write the mount point (not fed to
the hasher), dispatch on the version to write the index records
(hashed without an intervening `hasher.reset`), then the footer.
`fuel` bounds the `COMPR_ZLIB` block loop only. -/
def pack (fuel : Nat) (opts : PackOptions) (paths : List PackPath) : PackResult :=
  if versionOk opts.version = false then
    .error false [] (.unsupportedVersion opts.version)
  else if methodOk opts.compression_method = false then
    .error false [] (.unsupportedCompression opts.compression_method)
  else
    match packLoop fuel opts ⟨[], [], [], 0⟩ paths with
    | .err w e => .error true w e
    | .div w => .diverged true w
    | .ok st =>
      let index_offset := st.dataSize
      let mount_pount := opts.mount_point.getD ""
      match write_path mount_pount opts.encoding with
      | .error e => .error true st.written e
      | .ok mpBytes =>
        let afterMp := st.written ++ mpBytes
        if versionOk opts.version then
          match writeIndexRecords opts.version opts.encoding [] st.records with
          | .error (accBytes, e) => .error true (afterMp ++ accBytes) e
          | .ok idxBytes =>
            let index_size := mpBytes.length + idxBytes.length
            let index_sha1 := sha1Hash (st.hash ++ idxBytes)
            let footer := u32le PAK_MAGIC ++ u32le opts.version ++
              u64le index_offset ++ u64le index_size ++ index_sha1
            .ok (afterMp ++ idxBytes ++ footer)
              ⟨opts.version, index_offset, index_size, index_sha1,
                opts.mount_point, st.records⟩
        else .error true afterMp (.unsupportedVersion opts.version)

/-- Records of a successful `pack` run. -/
def resultRecords : PackResult → Option (List Record)
  | .ok _ pak => some pak.records
  | _ => none

/-- Data region of a successful `pack` run: the bytes written before the
index, i.e. the first `index_offset` bytes of the output file. -/
def resultDataRegion : PackResult → Option (List Nat)
  | .ok w pak => some (w.take pak.index_offset)
  | _ => none

/-- Stored `index_sha1` of a successful `pack` run. -/
def resultIndexSha1 : PackResult → Option (List Nat)
  | .ok _ pak => some pak.index_sha1
  | _ => none

/-- Raw index bytes of a successful `pack` run, read back from the
output at `index_offset` for `index_size` bytes (spec §6: the mount
point string followed by the serialized records). -/
def resultRawIndexBytes : PackResult → Option (List Nat)
  | .ok w pak => some ((w.drop pak.index_offset).take pak.index_size)
  | _ => none

/-- Per-record relation between the inputs of a run of the `pack` loop
and its outputs, indexed by the running payload offset: each record
sits at the running offset, its `size` is the length of the payload
bytes written for it, and an entry whose effective method is
`COMPR_NONE` has its file contents as payload and no compression
blocks.  `data` is the concatenation of all payloads. -/
inductive RecordsOk (opts : PackOptions) : Nat → List PackPath → List Record → List Nat → Prop where
  | nil (off : Nat) : RecordsOk opts off [] [] []
  | cons (off : Nat) (f : PackPath) (fs : List PackPath) (r : Record) (rs : List Record)
      (p tail : List Nat)
      (hoff : r.offset = off)
      (hsize : r.size = p.length)
      (hus : r.uncompressed_size = f.contents.length)
      (hts : r.timestamp = if opts.version = 1 then f.created else none)
      (hcr : opts.version = 1 → f.created.isSome)
      (hnone : effMethod opts f = COMPR_NONE → p = f.contents ∧ r.compression_blocks = none)
      (htail : RecordsOk opts (off + p.length) fs rs tail) :
      RecordsOk opts off (f :: fs) (r :: rs) (p ++ tail)

/-- Default `PackOptions` (`src/pack.rs` lines 74-84): version 3, no
mount point, no compression, default block size, default encoding. -/
def defaultOptions : PackOptions := ⟨3, none, COMPR_NONE, DEFAULT_BLOCK_SIZE, .UTF8⟩

/-- Options for a version-1 build, otherwise default. -/
def optionsV1 : PackOptions := ⟨1, none, COMPR_NONE, DEFAULT_BLOCK_SIZE, .UTF8⟩

/-- Options requesting Zlib compression for every entry. -/
def optionsZlib : PackOptions := ⟨3, none, COMPR_ZLIB, DEFAULT_BLOCK_SIZE, .UTF8⟩

/-- Options with an unsupported version. -/
def optionsBadVersion : PackOptions := ⟨7, none, COMPR_NONE, DEFAULT_BLOCK_SIZE, .UTF8⟩

/-- A two-byte uncompressed input file. -/
def fileA : PackPath := ⟨COMPR_DEFAULT, 0, "a", [1, 2], none⟩

/-- An input file whose creation time is unavailable. -/
def fileB : PackPath := ⟨COMPR_DEFAULT, 0, "b", [], none⟩

/-- An empty input file with creation time 5 (for a version-1 run). -/
def fileC : PackPath := ⟨COMPR_DEFAULT, 0, "a", [], some 5⟩

/-- A one-byte input file (used with Zlib options). -/
def fileZ : PackPath := ⟨COMPR_DEFAULT, 0, "z", [42], none⟩

/-- An empty input file (used with Zlib options). -/
def fileEmpty : PackPath := ⟨COMPR_DEFAULT, 0, "empty.bin", [], some 0⟩

/-- Output bytes of `pack 2 defaultOptions [fileA]`. -/
def wA : List Nat :=
  [1, 2, 0, 0, 0, 0, 0, 0, 0, 0, 1, 0, 0, 0, 0, 0, 0, 0, 97, 0, 0, 0, 0, 0, 0, 0,
   0, 2, 0, 0, 0, 0, 0, 0, 0, 2, 0, 0, 0, 0, 0, 0, 0, 0, 0, 0, 0, 12, 166, 35,
   226, 133, 95, 44, 117, 200, 66, 173, 48, 47, 232, 32, 228, 27, 77, 25, 125,
   225, 18, 111, 90, 3, 0, 0, 0, 2, 0, 0, 0, 0, 0, 0, 0, 65, 0, 0, 0, 0, 0, 0, 0,
   31, 162, 10, 152, 145, 194, 193, 140, 212, 111, 250, 115, 228, 96, 12, 191,
   73, 206, 113, 63]

/-- Pak value of `pack 2 defaultOptions [fileA]`. -/
def pakA : Pak :=
  ⟨3, 2, 65,
   [31, 162, 10, 152, 145, 194, 193, 140, 212, 111, 250, 115, 228, 96, 12, 191,
    73, 206, 113, 63],
   none,
   [⟨"a", 0, 2, 2, 0, none,
     [12, 166, 35, 226, 133, 95, 44, 117, 200, 66, 173, 48, 47, 232, 32, 228,
      27, 77, 25, 125], none, false, 0⟩]⟩

/-- Output bytes of `pack 1 optionsV1 [fileC]`. -/
def wC : List Nat :=
  [0, 0, 0, 0, 0, 0, 0, 0, 1, 0, 0, 0, 0, 0, 0, 0, 97, 0, 0, 0, 0, 0, 0, 0, 0, 0,
   0, 0, 0, 0, 0, 0, 0, 0, 0, 0, 0, 0, 0, 0, 0, 0, 0, 0, 0, 5, 0, 0, 0, 0, 0, 0,
   0, 218, 57, 163, 238, 94, 107, 75, 13, 50, 85, 191, 239, 149, 96, 24, 144,
   175, 216, 7, 9, 225, 18, 111, 90, 1, 0, 0, 0, 0, 0, 0, 0, 0, 0, 0, 0, 73, 0,
   0, 0, 0, 0, 0, 0, 27, 33, 223, 46, 50, 126, 95, 213, 228, 111, 123, 142, 199,
   168, 98, 193, 143, 54, 205, 133]

/-- Pak value of `pack 1 optionsV1 [fileC]`. -/
def pakC : Pak :=
  ⟨1, 0, 73,
   [27, 33, 223, 46, 50, 126, 95, 213, 228, 111, 123, 142, 199, 168, 98, 193,
    143, 54, 205, 133],
   none,
   [⟨"a", 0, 0, 0, 0, some 5,
     [218, 57, 163, 238, 94, 107, 75, 13, 50, 85, 191, 239, 149, 96, 24, 144,
      175, 216, 7, 9], none, false, 0⟩]⟩

theorem chunkedCopyGo_eq : ∀ (fuel : Nat) (data : List Nat), chunkedCopyGo fuel data = data := by
  intro fuel
  induction fuel with
  | zero => intro data; rfl
  | succ n ih =>
    intro data
    rw [chunkedCopyGo]
    split
    · rw [ih]; exact List.take_append_drop _ _
    · rfl

theorem chunkedCopy_eq (data : List Nat) : chunkedCopy data = data :=
  chunkedCopyGo_eq _ _

theorem sha1Hash_length (msg : List Nat) : (sha1Hash msg).length = 20 := by
  simp [sha1Hash, wordBE]

theorem zlibBlocks_zero : ∀ (fuel remaining s : Nat) (blocks : List CompressionBlock),
    zlibBlocks fuel 0 remaining s blocks = none := by
  intro fuel
  induction fuel with
  | zero => intro remaining s blocks; rfl
  | succ n ih =>
    intro remaining s blocks
    rw [zlibBlocks]
    simp [ih]

theorem recordsOk_length {opts : PackOptions} {off : Nat} {fs : List PackPath}
    {rs : List Record} {data : List Nat} (h : RecordsOk opts off fs rs data) :
    rs.length = fs.length := by
  induction h with
  | nil _ => rfl
  | cons off f fs r rs p tail hoff hsize hus hts hcr hnone htail ih => simp [ih]

theorem recordsOk_timestamps {opts : PackOptions} {off : Nat} {fs : List PackPath}
    {rs : List Record} {data : List Nat} (h : RecordsOk opts off fs rs data) :
    rs.map Record.timestamp = fs.map (fun f => if opts.version = 1 then f.created else none) := by
  induction h with
  | nil _ => rfl
  | cons off f fs r rs p tail hoff hsize hus hts hcr hnone htail ih => simp [hts, ih]

theorem recordsOk_created {opts : PackOptions} {off : Nat} {fs : List PackPath}
    {rs : List Record} {data : List Nat} (h : RecordsOk opts off fs rs data)
    (hv : opts.version = 1) : ∀ f ∈ fs, f.created.isSome := by
  induction h with
  | nil _ => intro f hf; cases hf
  | cons off f fs r rs p tail hoff hsize hus hts hcr hnone htail ih =>
    intro g hg
    rcases List.mem_cons.mp hg with h1 | h2
    · subst h1; exact hcr hv
    · exact ih g h2

theorem recordsOk_nth {opts : PackOptions} {off : Nat} {fs : List PackPath}
    {rs : List Record} {data : List Nat} (h : RecordsOk opts off fs rs data) :
    ∀ (pre post : List Nat), pre.length = off →
    ∀ i, i < fs.length → effMethod opts (fs.getD i default) = COMPR_NONE →
      (rs.getD i default).size = (rs.getD i default).uncompressed_size ∧
      (rs.getD i default).uncompressed_size = (fs.getD i default).contents.length ∧
      (rs.getD i default).compression_blocks = none ∧
      ((pre ++ data ++ post).drop (rs.getD i default).offset).take (rs.getD i default).size
        = (fs.getD i default).contents := by
  induction h with
  | nil _ => intro pre post hpre i hi; simp at hi
  | cons off f fs r rs p tail hoff hsize hus hts hcr hnone htail ih =>
    intro pre post hpre i hi heff
    cases i with
    | zero =>
      simp only [List.getD_cons_zero] at heff ⊢
      obtain ⟨hp, hblocks⟩ := hnone heff
      refine ⟨by rw [hsize, hus, hp], hus, hblocks, ?_⟩
      rw [hoff, ← hpre, hsize]
      have hflat : pre ++ (p ++ tail) ++ post = pre ++ (p ++ (tail ++ post)) := by
        simp [List.append_assoc]
      rw [hflat, List.drop_left, List.take_left]
      exact hp
    | succ i =>
      simp only [List.getD_cons_succ] at heff ⊢
      have hi' : i < fs.length := by simp at hi; omega
      have := ih (pre ++ p) post (by simp [hpre]) i hi' heff
      simpa only [List.append_assoc] using this

set_option maxRecDepth 8000 in
theorem packLoop_ok {opts : PackOptions} :
    ∀ (fs : List PackPath) (fuel : Nat) (st st' : LoopState),
    packLoop fuel opts st fs = .ok st' →
    ∃ recs data, st'.records = st.records ++ recs ∧ st'.written = st.written ++ data ∧
      st'.dataSize = st.dataSize + data.length ∧ RecordsOk opts st.dataSize fs recs data := by
  intro fs
  induction fs with
  | nil =>
    intro fuel st st' h
    rw [packLoop] at h
    cases h
    exact ⟨[], [], by simp, by simp, by simp, RecordsOk.nil _⟩
  | cons f rest ih =>
    intro fuel st st' h
    rw [packLoop] at h
    dsimp only at h
    split at h
    · exact absurd h (by simp)
    · rename_i timestamp hts0
      have hts1 : timestamp = (if opts.version = 1 then f.created else none) ∧
          (opts.version = 1 → f.created.isSome) := by
        by_cases hv : opts.version = 1
        · simp only [hv, if_true, reduceIte] at hts0 ⊢
          cases hcr : f.created with
          | none => rw [hcr] at hts0; cases hts0
          | some t => rw [hcr] at hts0; cases hts0; exact ⟨rfl, fun _ => rfl⟩
        · simp only [hv, if_false, reduceIte] at hts0
          cases hts0
          exact ⟨by simp [hv], fun hh => absurd hh hv⟩
      split at h
      · rename_i hc0
        rw [chunkedCopy_eq] at h
        obtain ⟨recs, data, hrecs, hwr, hds, hok⟩ := ih fuel _ st' h
        refine ⟨?rec :: recs, f.contents ++ data, ?g1, ?g2, ?g3, ?g4⟩
        case g1 => simpa [List.append_assoc] using hrecs
        case g2 => simpa [List.append_assoc] using hwr
        case g3 => simp only [hds]; simp [List.length_append]; omega
        case g4 =>
          exact RecordsOk.cons _ f rest _ recs f.contents data rfl rfl rfl
            hts1.1 hts1.2 (fun _ => ⟨rfl, rfl⟩) (by simpa using hok)
      · rename_i hc0
        split at h
        · rename_i hc1
          split at h
          · exact absurd h (by simp)
          · rename_i blocks hzb
            obtain ⟨recs, data, hrecs, hwr, hds, hok⟩ := ih fuel _ st' h
            refine ⟨?zrec :: recs, data, ?z1, ?z2, ?z3, ?z4⟩
            case z1 => simpa [List.append_assoc] using hrecs
            case z2 => simpa using hwr
            case z3 => simpa using hds
            case z4 =>
              exact RecordsOk.cons _ f rest _ recs [] data rfl rfl rfl
                hts1.1 hts1.2 (fun hcc => absurd hcc hc0) (by simpa using hok)
        · rename_i hc1
          exact absurd h (by simp)

theorem pack_ok_inv {fuel : Nat} {opts : PackOptions} {paths : List PackPath}
    {w : List Nat} {pak : Pak} (h : pack fuel opts paths = .ok w pak) :
    ∃ st mpBytes idxBytes footer,
      packLoop fuel opts ⟨[], [], [], 0⟩ paths = .ok st ∧
      write_path (opts.mount_point.getD "") opts.encoding = .ok mpBytes ∧
      writeIndexRecords opts.version opts.encoding [] st.records = .ok idxBytes ∧
      footer.length = 44 ∧
      w = st.written ++ (mpBytes ++ (idxBytes ++ footer)) ∧
      pak = ⟨opts.version, st.dataSize, mpBytes.length + idxBytes.length,
        sha1Hash (st.hash ++ idxBytes), opts.mount_point, st.records⟩ := by
  rw [pack] at h
  split at h
  · exact absurd h (by simp)
  · split at h
    · exact absurd h (by simp)
    · split at h
      · exact absurd h (by simp)
      · exact absurd h (by simp)
      · rename_i st hloop
        dsimp only at h
        split at h
        · exact absurd h (by simp)
        · rename_i mpBytes hmp
          split at h
          · split at h
            · exact absurd h (by simp)
            · rename_i idxBytes hidx
              cases h
              refine ⟨st, mpBytes, idxBytes,
                u32le PAK_MAGIC ++ u32le opts.version ++ u64le st.dataSize ++
                  u64le (mpBytes.length + idxBytes.length) ++
                  sha1Hash (st.hash ++ idxBytes),
                hloop, hmp, hidx, ?_, ?_, rfl⟩
              · simp [u32le, u64le, sha1Hash_length]
              · simp [List.append_assoc]
          · exact absurd h (by simp)

/-- Claim C1 (code gap): the spec says a Zlib-packed record's `size` is
the sum of the compressed block lengths and its `sha1` the digest of
the compressed bytes as written, but the Zlib write path of `pack` is
unimplemented: for a 1-byte file packed with Zlib it writes no payload
bytes at all (the data region is empty), leaves `size = 0` against
`uncompressed_size = 1`, records the degenerate block `⟨0, 0⟩`, and
stores the SHA-1 of the empty byte string — not a digest of any
compressed form of the contents `[42]`. -/
theorem pack_zlib_writes_nothing :
    resultRecords (pack 2 optionsZlib [fileZ]) =
      some [⟨"z", 0, 0, 1, COMPR_ZLIB, none, sha1Hash [], some [⟨0, 0⟩], false, 1⟩] ∧
    resultDataRegion (pack 2 optionsZlib [fileZ]) = some [] ∧
    sha1Hash [] ≠ sha1Hash [42] := by decide

/-- Claim C2 (code gap): `index_sha1` is claimed to be the SHA-1 of
exactly the raw index bytes (mount point string, then records).  For a
successful `pack` with no input files and the default empty mount
point, the raw index bytes read back from the output at `index_offset`
are the 8 length-prefix bytes of the empty mount-point string, yet the
stored `index_sha1` is the digest of the empty input — the mount-point
bytes are never fed to the hasher. -/
theorem pack_index_sha1_skips_mount_point :
    resultIndexSha1 (pack 0 defaultOptions []) = some (sha1Hash []) ∧
    resultRawIndexBytes (pack 0 defaultOptions []) = some (usizeLeBytes 0) ∧
    sha1Hash [] ≠ sha1Hash (usizeLeBytes 0) := by decide

/-- Claim C3 (code gap): the claim says `write_path` writes a 4-byte
little-endian `u32` length prefix, but the code writes
`bytes.len().to_le_bytes()`, a `usize` — 8 bytes on a 64-bit target —
under every encoding: `"a"` serializes to 9 bytes, not 5. -/
theorem write_path_length_prefix_is_usize :
    write_path "a" .UTF8 = .ok [1, 0, 0, 0, 0, 0, 0, 0, 97] ∧
    write_path "a" .ASCII = .ok [1, 0, 0, 0, 0, 0, 0, 0, 97] ∧
    write_path "a" .Latin1 = .ok [1, 0, 0, 0, 0, 0, 0, 0, 97] := by decide

/-- Claim C10 (code bug): `pack` does not terminate on a zero-length
file packed with Zlib: the block size is clamped to the file size 0 and
the loop condition `remaining >= compression_block_size` (`0 ≥ 0`)
never becomes false.  In the embedding, no amount of fuel makes the
block loop finish. -/
theorem pack_zlib_empty_file_diverges :
    ∀ fuel : Nat, pack fuel optionsZlib [fileEmpty] = .diverged true [] := by
  intro fuel
  have hz := zlibBlocks_zero fuel 0 0 []
  simp [pack, packLoop, versionOk, methodOk, optionsZlib, fileEmpty, effMethod,
    COMPR_DEFAULT, COMPR_ZLIB, COMPR_NONE, DEFAULT_BLOCK_SIZE, hz]

/-- Claim C4: a version outside {1,2,3} or a compression method other
than None/Zlib makes `pack` fail before the output file is created or
any byte is written (the `error` carries `created = false` and an empty
write trace). -/
theorem pack_rejects_bad_options_before_writing
    (fuel : Nat) (opts : PackOptions) (paths : List PackPath)
    (h : ¬(opts.version = 1 ∨ opts.version = 2 ∨ opts.version = 3) ∨
         ¬(opts.compression_method = COMPR_NONE ∨ opts.compression_method = COMPR_ZLIB)) :
    ∃ e, pack fuel opts paths = .error false [] e := by
  rcases h with hv | hm
  · refine ⟨.unsupportedVersion opts.version, ?_⟩
    rw [pack]
    have hvb : versionOk opts.version = false := by
      simp only [versionOk, Bool.or_eq_false_iff, beq_eq_false_iff_ne, ne_eq]
      omega
    simp [hvb]
  · by_cases hvb : versionOk opts.version = false
    · exact ⟨.unsupportedVersion opts.version, by rw [pack]; simp [hvb]⟩
    · refine ⟨.unsupportedCompression opts.compression_method, ?_⟩
      rw [pack]
      have hmb : methodOk opts.compression_method = false := by
        simp only [methodOk, Bool.or_eq_false_iff, beq_eq_false_iff_ne, ne_eq,
          COMPR_NONE, COMPR_ZLIB]
        simp only [COMPR_NONE, COMPR_ZLIB] at hm
        omega
      simp [hvb, hmb]

/-- Witness for C4 at a concrete input: version 7 is rejected with the
output untouched. -/
theorem pack_rejects_bad_options_witness :
    ∃ e, pack 0 optionsBadVersion [] = .error false [] e :=
  pack_rejects_bad_options_before_writing 0 optionsBadVersion []
    (Or.inl (by decide))

/-- Claim C5: under the ASCII encoding, `write_path` succeeds exactly
on strings whose UTF-8 bytes are all at most 127 (writing the length
prefix and those bytes), and for a string with a byte above 127 it
returns an encoding error naming that byte and the string — having
written nothing, since validation precedes all writes. -/
theorem write_path_ascii_spec (s : String) :
    ((∀ b ∈ strBytes s, b ≤ 127) →
      write_path s .ASCII = .ok (usizeLeBytes (strBytes s).length ++ strBytes s)) ∧
    ((∃ b ∈ strBytes s, 127 < b) →
      ∃ b ∈ strBytes s, 127 < b ∧
        write_path s .ASCII = .error (.illegalAsciiByte b s)) := by
  constructor
  · intro hall
    have hf : (strBytes s).find? (fun byte => 127 < byte) = none := by
      apply List.find?_eq_none.mpr
      intro x hx
      simp [Nat.not_lt.mpr (hall x hx)]
    simp [write_path, hf]
  · rintro ⟨b, hb, hbgt⟩
    cases hf : (strBytes s).find? (fun byte => 127 < byte) with
    | none =>
      exfalso
      have := List.find?_eq_none.mp hf b hb
      simp at this
      omega
    | some c =>
      refine ⟨c, List.mem_of_find?_eq_some hf, ?_, ?_⟩
      · have := List.find?_some hf
        simpa using this
      · simp [write_path, hf]

/-- Witness for C5: "ab" is all-ASCII and succeeds; "é" has the byte
0xC3 > 127 and is rejected with that byte and the string named. -/
theorem write_path_ascii_witness :
    write_path "ab" .ASCII = .ok (usizeLeBytes (strBytes "ab").length ++ strBytes "ab") ∧
    (∃ b ∈ strBytes "é", 127 < b ∧
      write_path "é" .ASCII = .error (.illegalAsciiByte b "é")) :=
  ⟨(write_path_ascii_spec "ab").1 (by decide),
   (write_path_ascii_spec "é").2 (by decide)⟩

/-- Claim C6: under the Latin-1 encoding, `write_path` fails with an
encoding error naming the character and the string when some character
exceeds code point 255, and otherwise writes the length prefix followed
by exactly one byte per character, each character truncated to a single
byte. -/
theorem write_path_latin1_spec (s : String) :
    ((∀ c ∈ s.data, c.toNat ≤ 255) →
      write_path s .Latin1 =
        .ok (usizeLeBytes s.data.length ++ s.data.map (fun c => c.toNat % 256)) ∧
      (s.data.map (fun c => c.toNat % 256)).length = s.data.length) ∧
    ((∃ c ∈ s.data, 255 < c.toNat) →
      ∃ c ∈ s.data, 255 < c.toNat ∧
        write_path s .Latin1 = .error (.illegalLatin1Char c s)) := by
  constructor
  · intro hall
    have hf : s.data.find? (fun ch => 255 < ch.toNat) = none := by
      apply List.find?_eq_none.mpr
      intro x hx
      simp [Nat.not_lt.mpr (hall x hx)]
    constructor
    · simp [write_path, hf]
    · simp
  · rintro ⟨c, hc, hcgt⟩
    cases hf : s.data.find? (fun ch => 255 < ch.toNat) with
    | none =>
      exfalso
      have := List.find?_eq_none.mp hf c hc
      simp at this
      omega
    | some c0 =>
      refine ⟨c0, List.mem_of_find?_eq_some hf, ?_, ?_⟩
      · have := List.find?_some hf
        simpa using this
      · simp [write_path, hf]

/-- Witness for C6: "é" (code point 0xE9 ≤ 255) is written as one byte
per character; "Āb" contains U+0100 > 255 and is rejected with that
character and the string named. -/
theorem write_path_latin1_witness :
    (write_path "é" .Latin1 =
        .ok (usizeLeBytes "é".data.length ++ "é".data.map (fun c => c.toNat % 256)) ∧
      ("é".data.map (fun c => c.toNat % 256)).length = "é".data.length) ∧
    (∃ c ∈ "Āb".data, 255 < c.toNat ∧
      write_path "Āb" .Latin1 = .error (.illegalLatin1Char c "Āb")) :=
  ⟨(write_path_latin1_spec "é").1 (by decide),
   (write_path_latin1_spec "Āb").2 (by decide)⟩

/-- Claim C7: a record's `timestamp` is `some` of the file's creation
time exactly when the requested version is 1; for versions 2 and 3 it
is `none` (absent, not zero); and a version-1 pack of a file whose
creation time cannot be obtained fails with an error naming the file. -/
theorem pack_timestamp_iff_version1 :
    (∀ (fuel : Nat) (opts : PackOptions) (paths : List PackPath) (w : List Nat) (pak : Pak),
      pack fuel opts paths = .ok w pak →
      pak.records.map Record.timestamp =
        paths.map (fun f => if opts.version = 1 then f.created else none) ∧
      (opts.version = 1 → ∀ f ∈ paths, f.created.isSome)) ∧
    (∀ (fuel : Nat) (opts : PackOptions) (f : PackPath) (rest : List PackPath),
      opts.version = 1 →
      (opts.compression_method = COMPR_NONE ∨ opts.compression_method = COMPR_ZLIB) →
      f.created = none →
      pack fuel opts (f :: rest) = .error true [] (.noCreationTime f.filename)) := by
  constructor
  · intro fuel opts paths w pak h
    obtain ⟨st, mpBytes, idxBytes, footer, hloop, hmp, hidx, hfl, hw, hpak⟩ := pack_ok_inv h
    obtain ⟨recs, data, hrecs, hwr, hds, hok⟩ := packLoop_ok paths fuel _ st hloop
    have hrecs' : st.records = recs := by simpa using hrecs
    subst hpak
    dsimp only
    rw [hrecs']
    exact ⟨recordsOk_timestamps hok, fun hv => recordsOk_created hok hv⟩
  · intro fuel opts f rest hv hm hcr
    have hvb : versionOk opts.version = true := by simp [versionOk, hv]
    have hmb : methodOk opts.compression_method = true := by
      rcases hm with h0 | h1
      · simp [methodOk, h0]
      · simp [methodOk, h1]
    have hone : packLoop fuel opts ⟨[], [], [], 0⟩ (f :: rest) =
        .err [] (.noCreationTime f.filename) := by
      rw [packLoop]
      simp [hv, hcr]
    rw [pack]
    simp [hvb, hmb, hone]

/-- Witness for C7: a version-1 pack of a file created at time 5 stores
`some 5`; a version-1 pack of a file with no creation time fails naming
the file. -/
theorem pack_timestamp_witness :
    pakC.records.map Record.timestamp =
      [fileC].map (fun f => if optionsV1.version = 1 then f.created else none) ∧
    pack 0 optionsV1 [fileB] = .error true [] (.noCreationTime "b") :=
  ⟨(pack_timestamp_iff_version1.1 1 optionsV1 [fileC] wC pakC (by decide)).1,
   pack_timestamp_iff_version1.2 0 optionsV1 fileB [] (by decide)
     (Or.inl (by decide)) (by decide)⟩

/-- Claim C8: every input whose effective compression method is None
yields a record with `size = uncompressed_size` (the file's byte
count) and no compression blocks, and its bytes appear verbatim in the
output at the record's offset. -/
theorem pack_uncompressed_verbatim
    (fuel : Nat) (opts : PackOptions) (paths : List PackPath)
    (w : List Nat) (pak : Pak) (h : pack fuel opts paths = .ok w pak) :
    pak.records.length = paths.length ∧
    ∀ i, i < paths.length →
      effMethod opts (paths.getD i default) = COMPR_NONE →
      (pak.records.getD i default).size = (pak.records.getD i default).uncompressed_size ∧
      (pak.records.getD i default).uncompressed_size = (paths.getD i default).contents.length ∧
      (pak.records.getD i default).compression_blocks = none ∧
      (w.drop (pak.records.getD i default).offset).take (pak.records.getD i default).size
        = (paths.getD i default).contents := by
  obtain ⟨st, mpBytes, idxBytes, footer, hloop, hmp, hidx, hfl, hw, hpak⟩ := pack_ok_inv h
  obtain ⟨recs, data, hrecs, hwr, hds, hok⟩ := packLoop_ok paths fuel _ st hloop
  have hrecs' : st.records = recs := by simpa using hrecs
  have hwr' : st.written = data := by simpa using hwr
  subst hpak
  dsimp only
  rw [hrecs']
  constructor
  · exact recordsOk_length hok
  · intro i hi heff
    have hnth := recordsOk_nth hok [] (mpBytes ++ (idxBytes ++ footer)) rfl i hi heff
    rw [hw, hwr']
    simpa only [List.nil_append] using hnth

/-- Witness for C8 on a concrete run: packing the two-byte file `fileA`
uncompressed gives one record with `size = uncompressed_size` and the
bytes `[1, 2]` sitting at its offset in the output. -/
theorem pack_uncompressed_witness :
    pakA.records.length = 1 ∧
    (pakA.records.getD 0 default).size = (pakA.records.getD 0 default).uncompressed_size ∧
    (pakA.records.getD 0 default).compression_blocks = none ∧
    (wA.drop (pakA.records.getD 0 default).offset).take (pakA.records.getD 0 default).size
      = fileA.contents := by
  have h := pack_uncompressed_verbatim 2 defaultOptions [fileA] wA pakA (by decide)
  have h0 := h.2 0 (by decide) (by decide)
  exact ⟨h.1, h0.1, h0.2.2.1, h0.2.2.2⟩

/-- Claim C9: for every successful pack, `index_offset + index_size`
equals the output length minus the 44 fixed footer bytes. -/
theorem pack_index_footer_invariant
    (fuel : Nat) (opts : PackOptions) (paths : List PackPath)
    (w : List Nat) (pak : Pak) (h : pack fuel opts paths = .ok w pak) :
    pak.index_offset + pak.index_size = w.length - 44 ∧ 44 ≤ w.length := by
  obtain ⟨st, mpBytes, idxBytes, footer, hloop, hmp, hidx, hfl, hw, hpak⟩ := pack_ok_inv h
  obtain ⟨recs, data, hrecs, hwr, hds, hok⟩ := packLoop_ok paths fuel _ st hloop
  have hwr' : st.written = data := by simpa using hwr
  have hds' : st.dataSize = data.length := by simpa using hds
  subst hpak
  dsimp only
  rw [hw, hwr', hds']
  simp [List.length_append, hfl]
  omega

/-- Witness for C9 on a concrete run: the invariant holds for the
output of packing `fileA`. -/
theorem pack_index_footer_witness :
    pakA.index_offset + pakA.index_size = wA.length - 44 ∧ 44 ≤ wA.length :=
  pack_index_footer_invariant 2 defaultOptions [fileA] wA pakA (by decide)

end U4pak
